import Mathlib

/-!
# Generalized information filter: residual models, element algebra, measurement timeline

A shallow embedding of the parts of the `generalized_information_filter` sources that the
verified properties are about.

Conventions of the embedding.

* `double` is idealised as an element of an arbitrary field `K` (exact arithmetic); concrete
  evaluations are done over `ℚ`.
* `Vec3` / `Vec<N>` are coordinate functions `Fin N → K`; `MatX` with `m` rows and `n`
  columns (the size the caller gave the matrix) is `Matrix (Fin m) (Fin n) K`.
* a C++ method writing its result through a reference parameter becomes a function returning
  the written value; a Jacobian routine takes the matrix it overwrites as its first argument.
* `TimePoint` and `Duration` are integer tick counts (`ℤ`); the range of the 64-bit
  representation is not modelled.
-/

namespace GIF

/-! ## Linear-algebra vocabulary -/

/-- Fixed-size vector `Vec<N>` of the sources. -/
abbrev Vec (K : Type) (N : Nat) := Fin N → K

/-- Three-vector `Vec3` (`V3D`) of the sources. -/
abbrev Vec3 (K : Type) := Vec K 3

/-- Dynamic matrix `MatX` (`MXD`) holding `m` rows and `n` columns. -/
abbrev MatX (K : Type) (m n : Nat) := Matrix (Fin m) (Fin n) K

section LinearAlgebra

variable {K : Type} [Field K]

/-- Eigen `J.setZero()`: every coefficient of the matrix becomes zero, the size is kept. -/
def setZero {m n : Nat} (_J : MatX K m n) : MatX K m n :=
  fun _ _ => 0

/-- Eigen `J.setIdentity()`: ones on the main diagonal, zero elsewhere, the size is kept. -/
def setIdentity {m n : Nat} (_J : MatX K m n) : MatX K m n :=
  fun i j => if i.val = j.val then 1 else 0

/-- `Mat3::Identity()`. -/
def Mat3Identity : MatX K 3 3 :=
  fun i j => if i.val = j.val then 1 else 0

/-- Eigen block assignment `J.block(r0, c0, p, q) = B`: the `p × q` window with upper-left
corner `(r0, c0)` is overwritten with `B`, every other coefficient is kept. -/
def setBlock {m n p q : Nat} (J : MatX K m n) (r0 c0 : Nat) (B : MatX K p q) : MatX K m n :=
  fun i j =>
    if h : (r0 ≤ i.val ∧ i.val < r0 + p) ∧ (c0 ≤ j.val ∧ j.val < c0 + q) then
      B ⟨i.val - r0, by omega⟩ ⟨j.val - c0, by omega⟩
    else J i j

/-- Offset of the `i`-th element inside a group whose elements have the tangent dimensions
`dims`, in schema order. -/
def elementStart (dims : List Nat) (i : Nat) : Nat :=
  (dims.take i).sum

/-- Modelled from the spec: `setJacBlock<o,i>` (and its `Pre` / `Cur` / `Noi` variants), declared
in the absent `transformation.h` / `binary-residual.h`. It writes the sub-block of the Jacobian
addressed by the output element `o` and the input element `i`, leaving all other entries as they
were. `outDims` and `inDims` are the tangent dimensions of the output and input groups. -/
def setJacBlock {m n p q : Nat} (outDims inDims : List Nat) (o i : Nat)
    (J : MatX K m n) (B : MatX K p q) : MatX K m n :=
  setBlock J (elementStart outDims o) (elementStart inDims i) B

/-- A `Vec3` used as a `3 × 1` Jacobian block. -/
def colBlock (v : Vec3 K) : MatX K 3 1 :=
  fun i _ => v i

/-- Tangent vector `eps * e_k`: the perturbation of the `k`-th tangent coordinate by `eps`
used by the finite-difference checks. -/
def scaledUnit {n : Nat} (eps : K) (k : Fin n) : Vec K n :=
  fun j => if j = k then eps else 0

/-- The constant `Vec3(1, 2, 3)`. -/
def vec123 : Vec3 K :=
  fun c => if c.val = 0 then 1 else if c.val = 1 then 2 else 3

end LinearAlgebra

/-! ## `TransformationExample` (test-simple.cc) -/

namespace TransformationExample

variable {K : Type} [Field K]

/-- Tangent dimensions of the output pack `ElementPack<Vec3>` (`pos`). -/
def outDims : List Nat := [3]

/-- Tangent dimensions of the input pack `ElementPack<double, std::array<Vec3, 4>>`
(`tim`, `sta`). -/
def inDims : List Nat := [1, 12]

/-- `evalTransform`: `posOut = (timeIn + 1.0) * (posIn[2] + Vec3(1, 2, 3))`. -/
def evalTransform (timeIn : K) (posIn : Fin 4 → Vec3 K) : Vec3 K :=
  fun c => (timeIn + 1) * (posIn 2 c + vec123 c)

/-- `jacTransform`: zero the matrix, write `Vec3(1, 2, 3)` into block `<0,0>`, build the
`3 × 12` matrix `J2` that is zero except for `Identity` in `block<3,3>(0, 6)`, write it into
block `<0,1>`. Neither `timeIn` nor `posIn` is read. -/
def jacTransform (J : MatX K 3 13) (_timeIn : K) (_posIn : Fin 4 → Vec3 K) : MatX K 3 13 :=
  let J0 := setZero J
  let J1 := setJacBlock outDims inDims 0 0 J0 (colBlock vec123)
  let J2 : MatX K 3 12 := setBlock (setZero (fun _ _ => 0)) 0 6 (Mat3Identity : MatX K 3 3)
  setJacBlock outDims inDims 0 1 J1 J2

/-- Modelled from the spec: `ElementVector::BoxPlus` of the absent `element-vector.h`, on the
input schema `{tim : double, sta : 4 × Vec3}`: component-wise in schema order over the
concatenated tangent blocks, every element being flat (boxplus = addition). Coordinate `0` of
the tangent vector belongs to `tim`, coordinate `1 + 3 a + c` to `sta[a](c)`. -/
def inputBoxPlus (timeIn : K) (posIn : Fin 4 → Vec3 K) (v : Vec K 13) :
    K × (Fin 4 → Vec3 K) :=
  (timeIn + v 0, fun a c => posIn a c + v ⟨1 + 3 * a.val + c.val, by omega⟩)

/-- Modelled from the spec: `Transformation::jacFD` of the absent `transformation.h`: the
finite-difference Jacobian whose `k`-th column is
`(evalTransform (x ⊞ eps e_k) - evalTransform x) / eps`. -/
def jacFD (eps : K) (timeIn : K) (posIn : Fin 4 → Vec3 K) : MatX K 3 13 :=
  fun r k =>
    let x := inputBoxPlus timeIn posIn (scaledUnit eps k)
    (evalTransform x.1 x.2 r - evalTransform timeIn posIn r) / eps

end TransformationExample

/-! ## `BinaryRedidualVelocity` (test-simple.cc) -/

namespace BinaryRedidualVelocity

variable {K : Type} [Field K]

/-- Residual pack `ElementPack<Vec3>` (`pos`). -/
def resDims : List Nat := [3]

/-- Previous-state pack `ElementPack<Vec3, Vec3>` (`pos`, `vel`). -/
def preDims : List Nat := [3, 3]

/-- Current-state pack `ElementPack<Vec3>` (`pos`). -/
def curDims : List Nat := [3]

/-- Noise pack `ElementPack<Vec3>` (`pos`). -/
def noiDims : List Nat := [3]

/-- `jacPre`: zero, then `Identity` into block `<0,0>` and `dt_ * Identity` into `<0,1>`. -/
def jacPre (dt : K) (J : MatX K 3 6) (_posPre _velPre _posCur _posNoi : Vec3 K) :
    MatX K 3 6 :=
  let J0 := setZero J
  let J1 := setJacBlock resDims preDims 0 0 J0 (Mat3Identity : MatX K 3 3)
  setJacBlock resDims preDims 0 1 J1 (dt • (Mat3Identity : MatX K 3 3))

/-- `jacCur`: zero, then `-Identity` into block `<0,0>`. -/
def jacCur (_dt : K) (J : MatX K 3 3) (_posPre _velPre _posCur _posNoi : Vec3 K) :
    MatX K 3 3 :=
  setJacBlock resDims curDims 0 0 (setZero J) (-(Mat3Identity : MatX K 3 3))

/-- `jacNoi`: zero, then `Identity` into block `<0,0>`. -/
def jacNoi (_dt : K) (J : MatX K 3 3) (_posPre _velPre _posCur _posNoi : Vec3 K) :
    MatX K 3 3 :=
  setJacBlock resDims noiDims 0 0 (setZero J) (Mat3Identity : MatX K 3 3)

end BinaryRedidualVelocity

/-! ## `PredictionAccelerometer` (test-simple.cc) -/

namespace PredictionAccelerometer

variable {K : Type} [Field K]

/-- State pack `ElementPack<Vec3>` (`vel`). -/
def staDims : List Nat := [3]

/-- Noise pack `ElementPack<Vec3>` (`vel`). -/
def noiDims : List Nat := [3]

/-- `predictJacPre`: zero, then `Identity` into block `<0,0>`. -/
def predictJacPre (J : MatX K 3 3) (_velPre _velNoi : Vec3 K) : MatX K 3 3 :=
  setJacBlock staDims staDims 0 0 (setZero J) (Mat3Identity : MatX K 3 3)

/-- `predictJacNoi`: zero, then `Identity` into block `<0,0>`. -/
def predictJacNoi (J : MatX K 3 3) (_velPre _velNoi : Vec3 K) : MatX K 3 3 :=
  setJacBlock staDims noiDims 0 0 (setZero J) (Mat3Identity : MatX K 3 3)

end PredictionAccelerometer

/-! ## Element algebra -/

/-- The per-type element operations `ElementTraits<T>` that the sources use but do not define
(they live in the absent `common.h`): the element type `T`, its tangent dimension `kDim`, its
identity value, `Boxplus(ref, vec, out)` returned as `out`, and `Boxminus(in, ref, vec)`
returned as `vec`. A residual is parametric in them. -/
structure ElementTraits (K : Type) where
  /-- The C++ element type. -/
  T : Type
  /-- Tangent dimension `ElementTraits<T>::kDim`. -/
  kDim : Nat
  /-- Identity value of the element. -/
  Identity : T
  /-- The value `ref ⊞ vec`. -/
  Boxplus : T → Vec K kDim → T
  /-- The tangent vector `x ⊟ ref`, called as `Boxminus x ref`. -/
  Boxminus : T → T → Vec K kDim

namespace ElementTraits

variable {K : Type} [Field K]

/-- Modelled from the spec: `ElementTraits<Vec<N>>`, a flat vector (boxplus = addition). -/
@[reducible] def vec (N : Nat) : ElementTraits K where
  T := Vec K N
  kDim := N
  Identity := fun _ => 0
  Boxplus := fun x v => fun c => x c + v c
  Boxminus := fun y x => fun c => y c - x c

end ElementTraits

/-! ## `RandomWalkPrediction` (residuals/random-walk-prediction.h) -/

namespace RandomWalkPrediction

variable {K : Type} [Field K] {n : Nat}

/-- The tuple `std::tuple<Sta&...>` of the state pack `ElementPack<Sta...>` with `n_ = n`
elements. -/
abbrev StaTuple (Sta : Fin n → ElementTraits K) := (i : Fin n) → (Sta i).T

/-- The tuple of the noise pack `ElementPack<Vec<ElementTraits<Sta>::kDim>...>`. -/
abbrev NoiTuple (Sta : Fin n → ElementTraits K) := (i : Fin n) → Vec K (Sta i).kDim

/-- `PredictRecursion<i>`: for `i < n_` element `i` of `cur` is overwritten with
`Boxplus(get<i>(pre), get<i>(noi))` and the recursion continues with `i + 1`; for `i >= n_`
nothing is done. The second component is a log of the indices written so far, in order. -/
def PredictRecursion (Sta : Fin n → ElementTraits K) (i : Nat)
    (cur : StaTuple Sta × List Nat) (pre : StaTuple Sta) (noi : NoiTuple Sta) :
    StaTuple Sta × List Nat :=
  if h : i < n then
    PredictRecursion Sta (i + 1)
      (Function.update cur.1 ⟨i, h⟩ ((Sta ⟨i, h⟩).Boxplus (pre ⟨i, h⟩) (noi ⟨i, h⟩)),
        cur.2 ++ [i]) pre noi
  else cur
termination_by n - i

/-- `Predict`: starts `PredictRecursion` at its default index `0`. -/
def Predict (Sta : Fin n → ElementTraits K) (cur pre : StaTuple Sta) (noi : NoiTuple Sta) :
    StaTuple Sta × List Nat :=
  PredictRecursion Sta 0 (cur, []) pre noi

/-- `PredictJacPre`: `J.setIdentity()`. -/
def PredictJacPre {r c : Nat} (Sta : Fin n → ElementTraits K) (J : MatX K r c)
    (_pre : StaTuple Sta) (_noi : NoiTuple Sta) : MatX K r c :=
  setIdentity J

/-- `PredictJacNoi`: `J.setIdentity()`. -/
def PredictJacNoi {r c : Nat} (Sta : Fin n → ElementTraits K) (J : MatX K r c)
    (_pre : StaTuple Sta) (_noi : NoiTuple Sta) : MatX K r c :=
  setIdentity J

/-- A state pack all of whose elements are flat vectors, `Sta_i = Vec<dims i>`. -/
@[reducible] def flatPack (dims : Fin n → Nat) : Fin n → ElementTraits K :=
  fun i => ElementTraits.vec (dims i)

/-- Total tangent dimension of a pack whose elements have the dimensions `dims`. -/
def totalDim : (n : Nat) → (Fin n → Nat) → Nat
  | 0, _ => 0
  | n + 1, dims => dims 0 + totalDim n (fun i => dims i.succ)

/-- Concatenation, in schema order, of the coordinates of a tuple of flat vectors. -/
def flatten : (n : Nat) → (dims : Fin n → Nat) → ((i : Fin n) → Vec K (dims i)) →
    Vec K (totalDim n dims)
  | 0, _, _ => fun k => k.elim0
  | n + 1, dims, x =>
    Fin.append (x 0) (flatten n (fun i => dims i.succ) (fun i => x i.succ))

end RandomWalkPrediction

/-! ## `ElementVector` -/

namespace ElementVector

variable {K : Type} [Field K]

end ElementVector

/-! ## `MeasurementTimeline` (Measurement.hpp) -/

/-- `TimePoint`: a point in time, counted in clock ticks. -/
abbrev TimePoint := ℤ

/-- `Duration`: a signed difference of time points, in clock ticks. -/
abbrev Duration := ℤ

/-- The data members of `class MeasurementTimeline` as declared in `Measurement.hpp`. `M`
stands for the stored `std::shared_ptr<const MeasurementBase>`; the `std::map` is the list of
its entries in iteration order. -/
structure MeasurementTimeline (M : Type) where
  /-- `std::map<TimePoint, std::shared_ptr<const MeasurementBase>> measMap_`. -/
  measMap_ : List (TimePoint × M)
  /-- `Duration maxWaitTime_`. -/
  maxWaitTime_ : Duration
  /-- `Duration minWaitTime_`. -/
  minWaitTime_ : Duration
  /-- `TimePoint lastProcessedTime_`. -/
  lastProcessedTime_ : TimePoint
  /-- `bool hasProcessedTime_`. -/
  hasProcessedTime_ : Bool

namespace MeasurementTimeline

variable {M : Type}

/-- The timestamps stored in the map, in iteration order. -/
def keys (tl : MeasurementTimeline M) : List TimePoint :=
  tl.measMap_.map Prod.fst

/-- Insertion into a `std::map`: the entry goes to its place in key order. When the key is
already present the slot keeps one entry, whose payload is `resolve old new` (the spec leaves
the outcome of a repeated timestamp open). -/
def mapInsert (resolve : M → M → M) (t : TimePoint) (meas : M) :
    List (TimePoint × M) → List (TimePoint × M)
  | [] => [(t, meas)]
  | (k, v) :: rest =>
    if t < k then (t, meas) :: (k, v) :: rest
    else if t = k then (k, resolve v meas) :: rest
    else (k, v) :: mapInsert resolve t meas rest

/-- Modelled from the spec: the constructor `MeasurementTimeline(maxWaitTime, minWaitTime)`,
whose body is in the absent `Measurement.cpp`. The timeline starts empty with no processed
time. -/
def construct (maxWaitTime minWaitTime : Duration) : MeasurementTimeline M where
  measMap_ := []
  maxWaitTime_ := maxWaitTime
  minWaitTime_ := minWaitTime
  lastProcessedTime_ := 0
  hasProcessedTime_ := false

/-- Modelled from the spec: `addMeas(meas, t)`, whose body is in the absent `Measurement.cpp`.
It inserts at key `t`, and is a no-op when `t <= lastProcessedTime` (stale measurement). -/
def addMeas (resolve : M → M → M) (tl : MeasurementTimeline M) (meas : M) (t : TimePoint) :
    MeasurementTimeline M :=
  if tl.hasProcessedTime_ = true ∧ t ≤ tl.lastProcessedTime_ then tl
  else { tl with measMap_ := mapInsert resolve t meas tl.measMap_ }

/-- Modelled from the spec: the effect of `Filter::init(t0)` (absent `Filter.cpp`) on one
timeline: its `lastProcessedTime` is initialised to `t0`. -/
def init (tl : MeasurementTimeline M) (t0 : TimePoint) : MeasurementTimeline M :=
  { tl with lastProcessedTime_ := t0, hasProcessedTime_ := true }

/-- Modelled from the spec: `addAllInRange(times, start, end)`, whose body is in the absent
`Measurement.cpp`. It walks the map in iteration order and inserts every timestamp in
`(start, end]` into the set; being `const`, it hands the timeline back as it was. -/
def addAllInRange (tl : MeasurementTimeline M) (times : Finset TimePoint)
    (start stop : TimePoint) : MeasurementTimeline M × Finset TimePoint :=
  (tl, tl.measMap_.foldl
    (fun acc kv => if start < kv.1 ∧ kv.1 ≤ stop then insert kv.1 acc else acc) times)

/-- Modelled from the spec: `addLastInRange(times, start, end)`, whose body is in the absent
`Measurement.cpp`. It inserts only the last timestamp, in iteration order, among those in
`(start, end]`; being `const`, it hands the timeline back as it was. -/
def addLastInRange (tl : MeasurementTimeline M) (times : Finset TimePoint)
    (start stop : TimePoint) : MeasurementTimeline M × Finset TimePoint :=
  match (tl.keys.filter (fun k => decide (start < k ∧ k ≤ stop))).getLast? with
  | some k => (tl, insert k times)
  | none => (tl, times)

/-- The invariant of the `std::map` member: the keys iterate in strictly increasing order. -/
def WellFormed (tl : MeasurementTimeline M) : Prop :=
  tl.keys.Sorted (· < ·)

end MeasurementTimeline

/-! ## `BinaryRedidualAccelerometer` (test-simple.cc) -/

namespace BinaryRedidualAccelerometer

variable {K : Type} [Field K]

end BinaryRedidualAccelerometer

/-! ## Theorems -/

section Helpers

variable {K : Type} [Field K]

omit [Field K] in
/-- Reading a coefficient inside the window written by `setBlock`. -/
theorem setBlock_apply_inside {m n p q : Nat} (J : MatX K m n) (r0 c0 : Nat) (B : MatX K p q)
    (i : Fin m) (j : Fin n)
    (h : (r0 ≤ i.val ∧ i.val < r0 + p) ∧ (c0 ≤ j.val ∧ j.val < c0 + q)) :
    setBlock J r0 c0 B i j = B ⟨i.val - r0, by omega⟩ ⟨j.val - c0, by omega⟩ := by
  unfold setBlock
  rw [dif_pos h]

omit [Field K] in
/-- Reading a coefficient outside the window written by `setBlock`. -/
theorem setBlock_apply_outside {m n p q : Nat} (J : MatX K m n) (r0 c0 : Nat) (B : MatX K p q)
    (i : Fin m) (j : Fin n)
    (h : ¬ ((r0 ≤ i.val ∧ i.val < r0 + p) ∧ (c0 ≤ j.val ∧ j.val < c0 + q))) :
    setBlock J r0 c0 B i j = J i j := by
  unfold setBlock
  rw [dif_neg h]

end Helpers

section ResidualHelpers

variable {K : Type} [Field K]

/-- Entries of the matrix written by `BinaryRedidualVelocity::jacPre`. -/
theorem BinaryRedidualVelocity.jacPre_apply (dt : K) (J : MatX K 3 6)
    (posPre velPre posCur posNoi : Vec3 K) (i : Fin 3) (j : Fin 6) :
    jacPre dt J posPre velPre posCur posNoi i j =
      if j.val = i.val then 1 else if j.val = 3 + i.val then dt else 0 := by
  have hi := i.isLt
  have hj := j.isLt
  simp only [jacPre, setJacBlock, setBlock, setZero, elementStart, resDims, preDims,
    Mat3Identity, List.take, List.sum_cons, List.sum_nil, Matrix.smul_apply, smul_eq_mul]
  split_ifs <;> first | rfl | omega | simp

/-- Entries of the matrix written by `BinaryRedidualVelocity::jacCur`. -/
theorem BinaryRedidualVelocity.jacCur_apply (dt : K) (J : MatX K 3 3)
    (posPre velPre posCur posNoi : Vec3 K) (i j : Fin 3) :
    jacCur dt J posPre velPre posCur posNoi i j = if i = j then -1 else 0 := by
  have hi := i.isLt
  have hj := j.isLt
  simp only [jacCur, setJacBlock, setBlock, setZero, elementStart, resDims, curDims,
    Mat3Identity, List.take, List.sum_cons, List.sum_nil, Matrix.neg_apply, Fin.ext_iff]
  split_ifs <;> first | rfl | omega | simp

/-- Entries of the matrix written by `BinaryRedidualVelocity::jacNoi`. -/
theorem BinaryRedidualVelocity.jacNoi_apply (dt : K) (J : MatX K 3 3)
    (posPre velPre posCur posNoi : Vec3 K) (i j : Fin 3) :
    jacNoi dt J posPre velPre posCur posNoi i j = if i = j then 1 else 0 := by
  have hi := i.isLt
  have hj := j.isLt
  simp only [jacNoi, setJacBlock, setBlock, setZero, elementStart, resDims, noiDims,
    Mat3Identity, List.take, List.sum_cons, List.sum_nil, Fin.ext_iff]
  split_ifs <;> first | rfl | omega

/-- Entries of the matrix written by `PredictionAccelerometer::predictJacPre`. -/
theorem PredictionAccelerometer.predictJacPre_apply (J : MatX K 3 3)
    (velPre velNoi : Vec3 K) (i j : Fin 3) :
    predictJacPre J velPre velNoi i j = if i = j then 1 else 0 := by
  have hi := i.isLt
  have hj := j.isLt
  simp only [predictJacPre, setJacBlock, setBlock, setZero, elementStart, staDims,
    Mat3Identity, List.take, List.sum_cons, List.sum_nil, Fin.ext_iff]
  split_ifs <;> first | rfl | omega

/-- Entries of the matrix written by `PredictionAccelerometer::predictJacNoi`. -/
theorem PredictionAccelerometer.predictJacNoi_apply (J : MatX K 3 3)
    (velPre velNoi : Vec3 K) (i j : Fin 3) :
    predictJacNoi J velPre velNoi i j = if i = j then 1 else 0 := by
  have hi := i.isLt
  have hj := j.isLt
  simp only [predictJacNoi, setJacBlock, setBlock, setZero, elementStart, staDims, noiDims,
    Mat3Identity, List.take, List.sum_cons, List.sum_nil, Fin.ext_iff]
  split_ifs <;> first | rfl | omega

end ResidualHelpers

section ResidualTheorems

variable {K : Type} [Field K]

open TransformationExample in
/-- C2 (evaluation at the failing input): for `timeIn = 1` and `posIn = 0` the matrix written by
`jacTransform` has the entry `1` in row `0`, column `7` (the `x` coordinate of `posIn[2]`),
while the finite-difference Jacobian of `evalTransform` with `eps = 1` has the entry `2`
there, so the analytic Jacobian is not the finite-difference Jacobian at this input. -/
theorem C2_jacTransform_mismatch_at_time_one :
    jacTransform (0 : MatX ℚ 3 13) 1 (fun _ _ => 0) 0 7 = 1 ∧
    jacFD (1 : ℚ) 1 (fun _ _ => 0) 0 7 = 2 ∧
    jacTransform (0 : MatX ℚ 3 13) 1 (fun _ _ => 0) ≠ jacFD (1 : ℚ) 1 (fun _ _ => 0) := by
  have h1 : jacTransform (0 : MatX ℚ 3 13) 1 (fun _ _ => 0) 0 7 = 1 := by
    simp [jacTransform, setJacBlock, setBlock, setZero, elementStart, outDims, inDims,
      Mat3Identity, colBlock, show ((7 : Fin 13) : ℕ) = 7 from rfl]
  have h2 : jacFD (1 : ℚ) 1 (fun _ _ => 0) 0 7 = 2 := by
    simp [jacFD, inputBoxPlus, evalTransform, scaledUnit, vec123, Fin.ext_iff,
      show ((7 : Fin 13) : ℕ) = 7 from rfl, show ((2 : Fin 4) : ℕ) = 2 from rfl]
    norm_num
  refine ⟨h1, h2, ?_⟩
  intro h
  rw [h, h2] at h1
  norm_num at h1

end ResidualTheorems
section RandomWalkHelpers

variable {K : Type} [Field K] {n : Nat}

open RandomWalkPrediction

omit [Field K] in
/-- One step of the template recursion below the pack size. -/
theorem RandomWalkPrediction.PredictRecursion_lt (Sta : Fin n → ElementTraits K) (i : Nat)
    (h : i < n) (cur : StaTuple Sta × List Nat) (pre : StaTuple Sta) (noi : NoiTuple Sta) :
    PredictRecursion Sta i cur pre noi =
      PredictRecursion Sta (i + 1)
        (Function.update cur.1 ⟨i, h⟩ ((Sta ⟨i, h⟩).Boxplus (pre ⟨i, h⟩) (noi ⟨i, h⟩)),
          cur.2 ++ [i]) pre noi := by
  rw [PredictRecursion, dif_pos h]

omit [Field K] in
/-- The terminating overload of the template recursion. -/
theorem RandomWalkPrediction.PredictRecursion_ge (Sta : Fin n → ElementTraits K) (i : Nat)
    (h : n ≤ i) (cur : StaTuple Sta × List Nat) (pre : StaTuple Sta) (noi : NoiTuple Sta) :
    PredictRecursion Sta i cur pre noi = cur := by
  rw [PredictRecursion, dif_neg (by omega)]

omit [Field K] in
/-- What the recursion started at index `i` leaves behind. -/
theorem RandomWalkPrediction.PredictRecursion_spec (Sta : Fin n → ElementTraits K)
    (pre : StaTuple Sta) (noi : NoiTuple Sta) :
    ∀ (k i : Nat) (cur : StaTuple Sta × List Nat), n - i = k →
      (∀ j : Fin n, (PredictRecursion Sta i cur pre noi).1 j =
        if i ≤ j.val then (Sta j).Boxplus (pre j) (noi j) else cur.1 j) ∧
      (PredictRecursion Sta i cur pre noi).2 = cur.2 ++ List.range' i (n - i) := by
  intro k
  induction k with
  | zero =>
    intro i cur hk
    have hge : n ≤ i := by omega
    rw [PredictRecursion_ge Sta i hge]
    refine ⟨fun j => ?_, ?_⟩
    · have := j.isLt
      rw [if_neg (by omega)]
    · simp [hk]
  | succ k ih =>
    intro i cur hk
    have hlt : i < n := by omega
    rw [PredictRecursion_lt Sta i hlt]
    obtain ⟨h1, h2⟩ := ih (i + 1)
      (Function.update cur.1 ⟨i, hlt⟩ ((Sta ⟨i, hlt⟩).Boxplus (pre ⟨i, hlt⟩) (noi ⟨i, hlt⟩)),
        cur.2 ++ [i]) (by omega)
    refine ⟨fun j => ?_, ?_⟩
    · rw [h1 j]
      by_cases hj : i + 1 ≤ j.val
      · rw [if_pos hj, if_pos (by omega)]
      · rw [if_neg hj]
        by_cases hij : j = ⟨i, hlt⟩
        · subst hij
          simp
        · have : ¬ i ≤ j.val := by
            intro hle
            apply hij
            apply Fin.ext
            show j.val = i
            omega
          rw [if_neg this]
          simp [Function.update_noteq hij]
    · rw [h2]
      have : n - i = (n - (i + 1)) + 1 := by omega
      rw [this, List.range'_succ]
      simp

end RandomWalkHelpers

section RandomWalkTheorems

variable {K : Type} [Field K] {n : Nat}

open RandomWalkPrediction

/-- C1: `RandomWalkPrediction::Predict` is the component-wise boxplus of the previous state with
the noise. For every pack of `n` element types, every prior content of `cur`, every `pre` and
`noi`: after `Predict` the `i`-th current element is `Boxplus(pre_i, noi_i)`; the indices
written are `0, 1, ..., n - 1`, each exactly once; the recursion instantiated at `i = n` does
nothing (and `Predict`, being a total function, always returns). For flat-vector elements the
result is `pre_i + noi_i`, hence `pre` itself when all noise is zero. -/
theorem C1_random_walk_predict_is_componentwise_boxplus (Sta : Fin n → ElementTraits K)
    (cur pre : StaTuple Sta) (noi : NoiTuple Sta) :
    (∀ i : Fin n, (Predict Sta cur pre noi).1 i = (Sta i).Boxplus (pre i) (noi i)) ∧
    (Predict Sta cur pre noi).2 = List.range n ∧
    (∀ s : StaTuple Sta × List Nat, PredictRecursion Sta n s pre noi = s) ∧
    (∀ (dims : Fin n → Nat) (cur0 pre0 noi0 : (i : Fin n) → Vec K (dims i)),
      (∀ i : Fin n, ((Predict (flatPack dims) cur0 pre0 noi0).1 i : Vec K (dims i))
          = pre0 i + noi0 i) ∧
      (Predict (flatPack dims) cur0 pre0 (fun _ _ => (0 : K))).1 = pre0) := by
  have key := fun (S : Fin n → ElementTraits K) (c p : StaTuple S) (q : NoiTuple S) =>
    PredictRecursion_spec S p q (n - 0) 0 (c, []) rfl
  refine ⟨fun i => ?_, ?_, fun s => PredictRecursion_ge Sta n (le_refl n) s pre noi, ?_⟩
  · have h := (key Sta cur pre noi).1 i
    rw [if_pos (Nat.zero_le _)] at h
    exact h
  · have h := (key Sta cur pre noi).2
    simp only [List.nil_append, Nat.sub_zero] at h
    rw [List.range_eq_range']
    exact h
  · intro dims cur0 pre0 noi0
    have hflat : ∀ (q : (i : Fin n) → Vec K (dims i)) (i : Fin n),
        ((Predict (flatPack dims) cur0 pre0 q).1 i : Vec K (dims i)) = pre0 i + q i := by
      intro q i
      have h := (key (flatPack dims) cur0 pre0 q).1 i
      rw [if_pos (Nat.zero_le _)] at h
      funext c
      exact congrFun h c
    refine ⟨hflat noi0, ?_⟩
    funext i c
    have h := congrFun (hflat (fun _ _ => (0 : K)) i) c
    simpa using h

/-- C5: for a state pack of flat vectors `Vec<dims i>`, for every `pre`, `noi` and every prior
content of the matrices, `PredictJacPre` and `PredictJacNoi` write the identity matrix of the
total state dimension (which is also the total dimension of the noise pack), and these are the
exact Jacobians of `Predict`: perturbing the previous state by `a` changes the flattened
prediction by `PredictJacPre * a`, perturbing the noise by `c` changes it by
`PredictJacNoi * c`. -/
theorem C5_random_walk_jacobians_exact (dims : Fin n → Nat)
    (Jp Jn : MatX K (totalDim n dims) (totalDim n dims))
    (cur0 cur1 pre noi a c : (i : Fin n) → Vec K (dims i)) :
    PredictJacPre (flatPack dims) Jp pre noi = (1 : Matrix _ _ K) ∧
    PredictJacNoi (flatPack dims) Jn pre noi = (1 : Matrix _ _ K) ∧
    totalDim n (fun i => (ElementTraits.vec (K := K) ((flatPack (K := K) dims i).kDim)).kDim)
      = totalDim n (fun i => (flatPack (K := K) dims i).kDim) ∧
    flatten n dims (fun i =>
        ((Predict (flatPack dims) cur1 (fun i => pre i + a i) noi).1 i : Vec K (dims i))
          - (Predict (flatPack dims) cur0 pre noi).1 i)
      = (PredictJacPre (flatPack dims) Jp pre noi).mulVec (flatten n dims a) ∧
    flatten n dims (fun i =>
        ((Predict (flatPack dims) cur1 pre (fun i => noi i + c i)).1 i : Vec K (dims i))
          - (Predict (flatPack dims) cur0 pre noi).1 i)
      = (PredictJacNoi (flatPack dims) Jn pre noi).mulVec (flatten n dims c) := by
  have hid : ∀ J : MatX K (totalDim n dims) (totalDim n dims),
      setIdentity J = (1 : Matrix _ _ K) := by
    intro J
    funext i j
    simp only [setIdentity, Matrix.one_apply, Fin.ext_iff]
  have hflat : ∀ (cc p q : (i : Fin n) → Vec K (dims i)) (i : Fin n),
      ((Predict (flatPack dims) cc p q).1 i : Vec K (dims i)) = p i + q i := by
    intro cc p q i
    have h := (PredictRecursion_spec (flatPack dims) p q (n - 0) 0 (cc, []) rfl).1 i
    rw [if_pos (Nat.zero_le _)] at h
    funext x
    exact congrFun h x
  refine ⟨hid Jp, hid Jn, rfl, ?_, ?_⟩
  · rw [show PredictJacPre (flatPack dims) Jp pre noi = (1 : Matrix _ _ K) from hid Jp,
      Matrix.one_mulVec]
    have hinc : (fun i =>
        ((Predict (flatPack dims) cur1 (fun i => pre i + a i) noi).1 i : Vec K (dims i))
          - (Predict (flatPack dims) cur0 pre noi).1 i) = a := by
      funext i x
      rw [hflat, hflat]
      simp only [Pi.add_apply, Pi.sub_apply]
      ring
    rw [hinc]
  · rw [show PredictJacNoi (flatPack dims) Jn pre noi = (1 : Matrix _ _ K) from hid Jn,
      Matrix.one_mulVec]
    have hinc : (fun i =>
        ((Predict (flatPack dims) cur1 pre (fun i => noi i + c i)).1 i : Vec K (dims i))
          - (Predict (flatPack dims) cur0 pre noi).1 i) = c := by
      funext i x
      rw [hflat, hflat]
      simp only [Pi.add_apply, Pi.sub_apply]
      ring
    rw [hinc]

end RandomWalkTheorems

section ElementVectorTheorems

variable {K : Type} [Field K]

end ElementVectorTheorems

section TimelineHelpers

variable {M : Type}

open MeasurementTimeline

/-- Entries after inserting a timestamp that is not yet present. -/
theorem MeasurementTimeline.mem_mapInsert_of_new (resolve : M → M → M) (t : TimePoint)
    (meas : M) (l : List (TimePoint × M)) (hnew : t ∉ l.map Prod.fst) (kv : TimePoint × M) :
    kv ∈ mapInsert resolve t meas l ↔ kv = (t, meas) ∨ kv ∈ l := by
  induction l with
  | nil => simp [mapInsert]
  | cons hd rest ih =>
    obtain ⟨k0, v0⟩ := hd
    have hne : t ≠ k0 := by
      intro h
      apply hnew
      simp [h]
    have hrest : t ∉ rest.map Prod.fst := by
      intro h
      apply hnew
      simp only [List.map_cons, List.mem_cons]
      exact Or.inr h
    unfold mapInsert
    rw [if_neg hne]
    split_ifs with h1
    · simp
    · simp only [List.mem_cons, ih hrest]
      tauto

end TimelineHelpers

section TimelineTheorems

variable {M : Type}

open MeasurementTimeline

/-- Members of the set built by the fold of `addAllInRange`. -/
theorem MeasurementTimeline.mem_foldl_inRange (start stop : TimePoint)
    (l : List (TimePoint × M)) (times : Finset TimePoint) (x : TimePoint) :
    x ∈ l.foldl (fun acc kv => if start < kv.1 ∧ kv.1 ≤ stop then insert kv.1 acc else acc)
        times ↔
      x ∈ times ∨ (x ∈ l.map Prod.fst ∧ start < x ∧ x ≤ stop) := by
  induction l generalizing times with
  | nil => simp
  | cons hd rest ih =>
    obtain ⟨k0, v0⟩ := hd
    simp only [List.foldl_cons, List.map_cons, List.mem_cons]
    rw [ih]
    split_ifs with hc
    · rw [Finset.mem_insert]
      constructor
      · rintro ((rfl | h) | h)
        · exact Or.inr ⟨Or.inl rfl, hc⟩
        · exact Or.inl h
        · exact Or.inr ⟨Or.inr h.1, h.2⟩
      · rintro (h | ⟨rfl | h, h2⟩)
        · exact Or.inl (Or.inr h)
        · exact Or.inl (Or.inl rfl)
        · exact Or.inr ⟨h, h2⟩
    · constructor
      · rintro (h | h)
        · exact Or.inl h
        · exact Or.inr ⟨Or.inr h.1, h.2⟩
      · rintro (h | ⟨rfl | h, h2⟩)
        · exact Or.inl h
        · exact absurd h2 hc
        · exact Or.inr ⟨h, h2⟩

/-- The last element of a strictly increasing list is its greatest. -/
theorem MeasurementTimeline.le_getLast_of_sorted (l : List TimePoint)
    (hs : l.Sorted (· < ·)) (m : TimePoint) (hm : l.getLast? = some m) :
    ∀ x ∈ l, x ≤ m := by
  induction l with
  | nil => simp
  | cons a rest ih =>
    cases rest with
    | nil =>
      simp only [List.getLast?_singleton, Option.some.injEq] at hm
      subst hm
      simp
    | cons b rest' =>
      rw [List.getLast?_cons_cons] at hm
      rw [List.sorted_cons] at hs
      have hrest := ih hs.2 hm
      intro x hx
      rcases List.mem_cons.mp hx with rfl | hx'
      · have hb : b ≤ m := hrest b (List.mem_cons_self _ _)
        exact le_trans (le_of_lt (hs.1 b (List.mem_cons_self _ _))) hb
      · exact hrest x hx'

end TimelineTheorems

section TimelineClaims

variable {M : Type}

open MeasurementTimeline

/-- C7: `addMeas` rejects stale measurements. For every timeline whose `lastProcessedTime_` has
been set and every `t <= lastProcessedTime_`, `addMeas (meas, t)` returns the timeline
unchanged (in particular `measMap_` and `lastProcessedTime_`). For `t > lastProcessedTime_`
and a timestamp not yet present, the entry `(t, meas)` is stored, the other entries are kept
and the processed time is untouched. In the scenario of the test (ticks of `u > 0`, five
measurements at `start - u`, `start`, `start + 2u`, `start + 3u`, `start + 4u` after
`init (start)`) exactly the last three are stored. -/
theorem C7_addMeas_rejects_stale (resolve : M → M → M) (tl : MeasurementTimeline M) (meas : M)
    (t : TimePoint) :
    (tl.hasProcessedTime_ = true → t ≤ tl.lastProcessedTime_ →
      addMeas resolve tl meas t = tl) ∧
    (tl.hasProcessedTime_ = true → tl.lastProcessedTime_ < t → t ∉ tl.keys →
      (t, meas) ∈ (addMeas resolve tl meas t).measMap_ ∧
      (∀ kv, kv ∈ (addMeas resolve tl meas t).measMap_ ↔ kv = (t, meas) ∨ kv ∈ tl.measMap_) ∧
      (addMeas resolve tl meas t).lastProcessedTime_ = tl.lastProcessedTime_ ∧
      (addMeas resolve tl meas t).hasProcessedTime_ = tl.hasProcessedTime_) ∧
    (∀ (maxWaitTime minWaitTime : Duration) (start : ℤ) (u : ℤ), 0 < u →
      (addMeas resolve (addMeas resolve (addMeas resolve (addMeas resolve (addMeas resolve
        (init (construct maxWaitTime minWaitTime) start)
        meas (start - u)) meas start) meas (start + 2 * u)) meas (start + 3 * u))
        meas (start + 4 * u)).keys = [start + 2 * u, start + 3 * u, start + 4 * u]) := by
  refine ⟨?_, ?_, ?_⟩
  · intro hp hle
    unfold addMeas
    rw [if_pos ⟨hp, hle⟩]
  · intro hp hlt hnew
    have hc : ¬ (tl.hasProcessedTime_ = true ∧ t ≤ tl.lastProcessedTime_) :=
      fun h => absurd hlt (not_lt.mpr h.2)
    have hentries : ∀ kv, kv ∈ (addMeas resolve tl meas t).measMap_ ↔
        kv = (t, meas) ∨ kv ∈ tl.measMap_ := by
      intro kv
      unfold addMeas
      rw [if_neg hc]
      exact mem_mapInsert_of_new resolve t meas tl.measMap_ hnew kv
    refine ⟨(hentries (t, meas)).mpr (Or.inl rfl), hentries, ?_, ?_⟩
    · unfold addMeas
      rw [if_neg hc]
    · unfold addMeas
      rw [if_neg hc]
  · intro maxW minW start u hu
    have h1 : start - u ≤ start := by omega
    have h2 : ¬ start + 2 * u ≤ start := by omega
    have h3 : ¬ start + 3 * u ≤ start := by omega
    have h4 : ¬ start + 4 * u ≤ start := by omega
    have h5 : ¬ start + 3 * u < start + 2 * u := by omega
    have h6 : ¬ start + 3 * u = start + 2 * u := by omega
    have h7 : ¬ start + 4 * u < start + 2 * u := by omega
    have h8 : ¬ start + 4 * u = start + 2 * u := by omega
    have h9 : ¬ start + 4 * u < start + 3 * u := by omega
    have h10 : ¬ start + 4 * u = start + 3 * u := by omega
    simp [addMeas, init, construct, keys, mapInsert, h1, h2, h3, h4, h5, h6, h7, h8, h9, h10]

/-- C7 (witness): the timeline of the test, in ticks of 0.1 s with `start = 0`: after
`init (start)` the measurement at `start - 0.1 s` is rejected, and of the five measurements
exactly those at `+0.2`, `+0.3`, `+0.4 s` are stored. -/
theorem C7_addMeas_rejects_stale_witness :
    (init (construct 1 0 : MeasurementTimeline Unit) 0).hasProcessedTime_ = true ∧
    (-1 : ℤ) ≤ (init (construct 1 0 : MeasurementTimeline Unit) 0).lastProcessedTime_ ∧
    addMeas (fun old _ => old) (init (construct 1 0 : MeasurementTimeline Unit) 0) () (-1)
      = init (construct 1 0) 0 ∧
    (addMeas (fun old _ => old) (addMeas (fun old _ => old) (addMeas (fun old _ => old)
      (addMeas (fun old _ => old) (addMeas (fun old _ => old)
        (init (construct 1 0 : MeasurementTimeline Unit) 0)
        () (-1)) () 0) () 2) () 3) () 4).keys = [2, 3, 4] :=
  ⟨rfl, by decide,
    (C7_addMeas_rejects_stale (fun old _ => old)
      (init (construct 1 0 : MeasurementTimeline Unit) 0) () (-1)).1 rfl (by decide),
    by decide⟩

/-- C10: range collection. For every timeline, every set `times` and every `start`, `end`:
`addAllInRange` leaves `times` united with exactly the stored timestamps in `(start, end]`;
`addLastInRange` leaves `times` united with only the greatest stored timestamp in
`(start, end]`, and `times` itself when there is none; both return the timeline unchanged; and
what `addLastInRange` produces is contained in what `addAllInRange` produces. -/
theorem C10_range_collection (tl : MeasurementTimeline M) (hwf : WellFormed tl)
    (times : Finset TimePoint) (start stop : TimePoint) :
    (∀ x, x ∈ (addAllInRange tl times start stop).2 ↔
      x ∈ times ∨ (x ∈ tl.keys ∧ start < x ∧ x ≤ stop)) ∧
    ((∃ m, m ∈ tl.keys ∧ start < m ∧ m ≤ stop ∧
        (∀ k ∈ tl.keys, start < k → k ≤ stop → k ≤ m) ∧
        (addLastInRange tl times start stop).2 = insert m times) ∨
      ((∀ k ∈ tl.keys, ¬ (start < k ∧ k ≤ stop)) ∧
        (addLastInRange tl times start stop).2 = times)) ∧
    (addAllInRange tl times start stop).1 = tl ∧
    (addLastInRange tl times start stop).1 = tl ∧
    (addLastInRange tl times start stop).2 ⊆ (addAllInRange tl times start stop).2 := by
  have hall : ∀ x, x ∈ (addAllInRange tl times start stop).2 ↔
      x ∈ times ∨ (x ∈ tl.keys ∧ start < x ∧ x ≤ stop) := fun x =>
    mem_foldl_inRange start stop tl.measMap_ times x
  have hlast : (∃ m, m ∈ tl.keys ∧ start < m ∧ m ≤ stop ∧
        (∀ k ∈ tl.keys, start < k → k ≤ stop → k ≤ m) ∧
        (addLastInRange tl times start stop) = (tl, insert m times)) ∨
      ((∀ k ∈ tl.keys, ¬ (start < k ∧ k ≤ stop)) ∧
        (addLastInRange tl times start stop) = (tl, times)) := by
    unfold addLastInRange
    cases hg : (tl.keys.filter (fun k => decide (start < k ∧ k ≤ stop))).getLast? with
    | none =>
      right
      refine ⟨?_, rfl⟩
      rw [List.getLast?_eq_none_iff] at hg
      intro k hk hin
      have : k ∈ tl.keys.filter (fun k => decide (start < k ∧ k ≤ stop)) := by
        rw [List.mem_filter]
        exact ⟨hk, by simpa using hin⟩
      rw [hg] at this
      exact absurd this (List.not_mem_nil _)
    | some m =>
      left
      have hmem : m ∈ tl.keys.filter (fun k => decide (start < k ∧ k ≤ stop)) :=
        List.mem_of_getLast?_eq_some hg
      rw [List.mem_filter] at hmem
      have hin : start < m ∧ m ≤ stop := by simpa using hmem.2
      have hsorted : (tl.keys.filter (fun k => decide (start < k ∧ k ≤ stop))).Sorted (· < ·) :=
        (show tl.keys.Sorted (· < ·) from hwf).sublist (List.filter_sublist _)
      refine ⟨m, hmem.1, hin.1, hin.2, ?_, rfl⟩
      intro k hk hk1 hk2
      apply le_getLast_of_sorted _ hsorted m hg
      rw [List.mem_filter]
      exact ⟨hk, by simpa using And.intro hk1 hk2⟩
  refine ⟨hall, ?_, rfl, ?_, ?_⟩
  · rcases hlast with ⟨m, h1, h2, h3, h4, h5⟩ | ⟨h1, h2⟩
    · exact Or.inl ⟨m, h1, h2, h3, h4, by rw [h5]⟩
    · exact Or.inr ⟨h1, by rw [h2]⟩
  · rcases hlast with ⟨m, _, _, _, _, h5⟩ | ⟨_, h2⟩
    · rw [h5]
    · rw [h2]
  · intro x hx
    rw [hall]
    rcases hlast with ⟨m, h1, h2, h3, _, h5⟩ | ⟨_, h2⟩
    · rw [h5, Finset.mem_insert] at hx
      rcases hx with rfl | hx
      · exact Or.inr ⟨h1, h2, h3⟩
      · exact Or.inl hx
    · rw [h2] at hx
      exact Or.inl hx

/-- C10 (witness): stored timestamps `2, 3, 4`, range `(2, 4]`, `times = {0}`:
`addAllInRange` gives `{0, 3, 4}` and `addLastInRange` gives `{0, 4}`. -/
theorem C10_range_collection_witness :
    WellFormed (addMeas (fun old _ => old) (addMeas (fun old _ => old)
      (addMeas (fun old _ => old) (construct 1 0 : MeasurementTimeline Unit) () 2) () 3) () 4) ∧
    (addAllInRange (addMeas (fun old _ => old) (addMeas (fun old _ => old)
      (addMeas (fun old _ => old) (construct 1 0 : MeasurementTimeline Unit) () 2) () 3) () 4)
      {0} 2 4).2 = {0, 3, 4} ∧
    (addLastInRange (addMeas (fun old _ => old) (addMeas (fun old _ => old)
      (addMeas (fun old _ => old) (construct 1 0 : MeasurementTimeline Unit) () 2) () 3) () 4)
      {0} 2 4).2 = {0, 4} ∧
    (addLastInRange (addMeas (fun old _ => old) (addMeas (fun old _ => old)
      (addMeas (fun old _ => old) (construct 1 0 : MeasurementTimeline Unit) () 2) () 3) () 4)
      {0} 2 4).2 ⊆
    (addAllInRange (addMeas (fun old _ => old) (addMeas (fun old _ => old)
      (addMeas (fun old _ => old) (construct 1 0 : MeasurementTimeline Unit) () 2) () 3) () 4)
      {0} 2 4).2 :=
  ⟨by unfold WellFormed; decide, by decide, by decide,
    (C10_range_collection _ (by unfold WellFormed; decide) {0} 2 4).2.2.2.2⟩

end TimelineClaims

section ResidualBehaviour

variable {K : Type} [Field K]

/-- Entries of the matrix written by `TransformationExample::jacTransform`. -/
theorem TransformationExample.jacTransform_apply (J : MatX K 3 13) (timeIn : K)
    (posIn : Fin 4 → Vec3 K) (r : Fin 3) (k : Fin 13) :
    jacTransform J timeIn posIn r k =
      if k.val = 0 then vec123 r else if k.val = 7 + r.val then 1 else 0 := by
  have hr := r.isLt
  have hk := k.isLt
  simp only [jacTransform, setJacBlock, setBlock, setZero, elementStart, outDims, inDims,
    Mat3Identity, colBlock, List.take, List.sum_cons, List.sum_nil]
  split_ifs <;> first | rfl | omega

/-- Entries of the finite-difference Jacobian of `TransformationExample::evalTransform`. -/
theorem TransformationExample.jacFD_apply (eps : K) (heps : eps ≠ 0) (timeIn : K)
    (posIn : Fin 4 → Vec3 K) (r : Fin 3) (k : Fin 13) :
    jacFD eps timeIn posIn r k =
      if k.val = 0 then posIn 2 r + vec123 r
      else if k.val = 7 + r.val then timeIn + 1 else 0 := by
  have hr := r.isLt
  have hk := k.isLt
  have h2 : ((2 : Fin 4) : ℕ) = 2 := rfl
  simp only [jacFD, inputBoxPlus, evalTransform, scaledUnit, Fin.ext_iff, h2, Fin.val_zero]
  split_ifs <;> first | omega | (field_simp <;> ring)

end ResidualBehaviour

section JacobianFrame

variable {K : Type} [Field K]

/-- C12: every analytic Jacobian routine overwrites the whole matrix. For
`TransformationExample::jacTransform`, `BinaryRedidualVelocity::jacPre / jacCur / jacNoi`,
`PredictionAccelerometer::predictJacPre / predictJacNoi` and
`RandomWalkPrediction::PredictJacPre / PredictJacNoi`, called with the same arguments on two
matrices `J1`, `J2` of the right size, the results are equal (the prior content of `J` plays no
role). Entries outside what is explicitly written are zero: a block written into a zeroed
matrix leaves zero outside its window, `jacTransform` is zero outside column `0` and columns
`7..9`, and the random-walk Jacobians are zero off the diagonal. (The blocks written by the
velocity and accelerometer routines cover their whole matrix.) -/
theorem C12_jacobian_routines_overwrite_whole_matrix (dt timeIn : K) (posIn : Fin 4 → Vec3 K)
    (x1 x2 x3 x4 : Vec3 K) :
    (∀ J1 J2 : MatX K 3 13, TransformationExample.jacTransform J1 timeIn posIn
        = TransformationExample.jacTransform J2 timeIn posIn) ∧
    (∀ J1 J2 : MatX K 3 6, BinaryRedidualVelocity.jacPre dt J1 x1 x2 x3 x4
        = BinaryRedidualVelocity.jacPre dt J2 x1 x2 x3 x4) ∧
    (∀ J1 J2 : MatX K 3 3, BinaryRedidualVelocity.jacCur dt J1 x1 x2 x3 x4
        = BinaryRedidualVelocity.jacCur dt J2 x1 x2 x3 x4) ∧
    (∀ J1 J2 : MatX K 3 3, BinaryRedidualVelocity.jacNoi dt J1 x1 x2 x3 x4
        = BinaryRedidualVelocity.jacNoi dt J2 x1 x2 x3 x4) ∧
    (∀ J1 J2 : MatX K 3 3, PredictionAccelerometer.predictJacPre J1 x1 x2
        = PredictionAccelerometer.predictJacPre J2 x1 x2) ∧
    (∀ J1 J2 : MatX K 3 3, PredictionAccelerometer.predictJacNoi J1 x1 x2
        = PredictionAccelerometer.predictJacNoi J2 x1 x2) ∧
    (∀ (n r c : Nat) (Sta : Fin n → ElementTraits K) (J1 J2 : MatX K r c)
        (pre : RandomWalkPrediction.StaTuple Sta) (noi : RandomWalkPrediction.NoiTuple Sta),
      RandomWalkPrediction.PredictJacPre Sta J1 pre noi
          = RandomWalkPrediction.PredictJacPre Sta J2 pre noi ∧
      RandomWalkPrediction.PredictJacNoi Sta J1 pre noi
          = RandomWalkPrediction.PredictJacNoi Sta J2 pre noi ∧
      (∀ (i : Fin r) (j : Fin c), i.val ≠ j.val →
        RandomWalkPrediction.PredictJacPre Sta J1 pre noi i j = 0 ∧
        RandomWalkPrediction.PredictJacNoi Sta J1 pre noi i j = 0)) ∧
    (∀ (m n p q : Nat) (outDims inDims : List Nat) (o i : Nat) (J : MatX K m n)
        (B : MatX K p q) (r : Fin m) (k : Fin n),
      ¬ ((elementStart outDims o ≤ r.val ∧ r.val < elementStart outDims o + p) ∧
          (elementStart inDims i ≤ k.val ∧ k.val < elementStart inDims i + q)) →
      setJacBlock outDims inDims o i (setZero J) B r k = 0) ∧
    (∀ (J : MatX K 3 13) (r : Fin 3) (k : Fin 13), k.val ≠ 0 → ¬ (7 ≤ k.val ∧ k.val ≤ 9) →
      TransformationExample.jacTransform J timeIn posIn r k = 0) := by
  refine ⟨?_, ?_, ?_, ?_, ?_, ?_, ?_, ?_, ?_⟩
  · intro J1 J2
    funext r k
    rw [TransformationExample.jacTransform_apply, TransformationExample.jacTransform_apply]
  · intro J1 J2
    funext r k
    rw [BinaryRedidualVelocity.jacPre_apply, BinaryRedidualVelocity.jacPre_apply]
  · intro J1 J2
    funext r k
    rw [BinaryRedidualVelocity.jacCur_apply, BinaryRedidualVelocity.jacCur_apply]
  · intro J1 J2
    funext r k
    rw [BinaryRedidualVelocity.jacNoi_apply, BinaryRedidualVelocity.jacNoi_apply]
  · intro J1 J2
    funext r k
    rw [PredictionAccelerometer.predictJacPre_apply,
      PredictionAccelerometer.predictJacPre_apply]
  · intro J1 J2
    funext r k
    rw [PredictionAccelerometer.predictJacNoi_apply,
      PredictionAccelerometer.predictJacNoi_apply]
  · intro n r c Sta J1 J2 pre noi
    refine ⟨rfl, rfl, ?_⟩
    intro i j hij
    simp only [RandomWalkPrediction.PredictJacPre, RandomWalkPrediction.PredictJacNoi,
      setIdentity, if_neg hij, and_self]
  · intro m n p q outDims inDims o i J B r k hout
    unfold setJacBlock
    rw [setBlock_apply_outside _ _ _ _ _ _ hout]
    rfl
  · intro J r k h0 h79
    have hr := r.isLt
    rw [TransformationExample.jacTransform_apply, if_neg h0, if_neg (by omega)]

/-- C12 (witness): `jacTransform` called on the all-ones matrix leaves `0` at row `0`,
column `3` (a column of `posIn[0]`, outside column `0` and columns `7..9`). -/
theorem C12_jacobian_routines_overwrite_whole_matrix_witness :
    ((⟨3, by decide⟩ : Fin 13).val ≠ 0) ∧
    ¬ (7 ≤ (⟨3, by decide⟩ : Fin 13).val ∧ (⟨3, by decide⟩ : Fin 13).val ≤ 9) ∧
    TransformationExample.jacTransform (fun _ _ => (1 : ℚ)) 0 (fun _ _ => 0)
      ⟨0, by decide⟩ ⟨3, by decide⟩ = 0 :=
  ⟨by decide, by decide,
    (C12_jacobian_routines_overwrite_whole_matrix (0 : ℚ) 0 (fun _ _ => 0)
      0 0 0 0).2.2.2.2.2.2.2.2 (fun _ _ => 1) ⟨0, by decide⟩ ⟨3, by decide⟩
      (by decide) (by decide)⟩

end JacobianFrame

section ExampleJacobianRegion

variable {K : Type} [Field K]

open TransformationExample in
/-- C13: exact validity region of the example Jacobian. The matrix written by `jacTransform`
has column `0` equal to `(1, 2, 3)`, the `3 × 3` identity in the columns `7..9` of `posIn[2]`
and zero elsewhere. The true Jacobian of `evalTransform` at `(timeIn, posIn)` (the
finite-difference Jacobian, which is the same for every `eps ≠ 0`) has column `0` equal to
`posIn[2] + (1, 2, 3)`, the block `(timeIn + 1) * I3` in the columns of `posIn[2]` and zero
columns for `posIn[0]`, `posIn[1]`, `posIn[3]`. The two coincide if and only if `timeIn = 0`
and `posIn[2] = 0`; in particular they coincide at the identity input (`timeIn = 0`,
`posIn = 0`) used by the test. -/
theorem C13_jacTransform_valid_iff_identity_point (eps : K) (heps : eps ≠ 0)
    (J : MatX K 3 13) (timeIn : K) (posIn : Fin 4 → Vec3 K) :
    (∀ (r : Fin 3) (k : Fin 13), jacTransform J timeIn posIn r k =
      if k.val = 0 then vec123 r else if k.val = 7 + r.val then 1 else 0) ∧
    (∀ (r : Fin 3) (k : Fin 13), jacFD eps timeIn posIn r k =
      if k.val = 0 then posIn 2 r + vec123 r
      else if k.val = 7 + r.val then timeIn + 1 else 0) ∧
    (jacTransform J timeIn posIn = jacFD eps timeIn posIn ↔
      timeIn = 0 ∧ posIn 2 = fun _ => 0) ∧
    jacTransform J 0 (fun _ _ => 0) = jacFD eps 0 (fun _ _ => 0) := by
  have hiff : ∀ (t : K) (p : Fin 4 → Vec3 K),
      jacTransform J t p = jacFD eps t p ↔ t = 0 ∧ p 2 = fun _ => 0 := by
    intro t p
    constructor
    · intro h
      constructor
      · have h07 := congrFun (congrFun h ⟨0, by decide⟩) ⟨7, by decide⟩
        rw [jacTransform_apply, jacFD_apply eps heps] at h07
        simp only [Nat.add_zero, if_true] at h07
        rw [if_neg (by decide), if_neg (by decide)] at h07
        linear_combination -h07
      · funext r
        have hr0 := congrFun (congrFun h r) ⟨0, by decide⟩
        rw [jacTransform_apply, jacFD_apply eps heps] at hr0
        simp only [if_true] at hr0
        linear_combination -hr0
    · rintro ⟨ht, hp⟩
      funext r k
      rw [jacTransform_apply, jacFD_apply eps heps, ht, hp]
      simp only [zero_add]
  refine ⟨jacTransform_apply J timeIn posIn, jacFD_apply eps heps timeIn posIn,
    hiff timeIn posIn, ?_⟩
  exact (hiff 0 (fun _ _ => 0)).mpr ⟨rfl, rfl⟩

/-- C13 (witness): over `ℚ` with `eps = 1`, at `timeIn = 1`, `posIn = 0`; there the analytic
and the true Jacobian coincide only if `1 = 0`. -/
theorem C13_jacTransform_valid_iff_identity_point_witness :
    (1 : ℚ) ≠ 0 ∧
    (TransformationExample.jacTransform (0 : MatX ℚ 3 13) 1 (fun _ _ => 0)
        = TransformationExample.jacFD 1 1 (fun _ _ => 0) ↔
      (1 : ℚ) = 0 ∧ (fun _ => 0 : Vec3 ℚ) = fun _ => 0) :=
  ⟨one_ne_zero,
    (C13_jacTransform_valid_iff_identity_point (1 : ℚ) one_ne_zero 0 1 (fun _ _ => 0)).2.2.1⟩

end ExampleJacobianRegion

section AccelerometerAgreement

variable {K : Type} [Field K]

end AccelerometerAgreement

end GIF
